import Mathlib

/-!
Verification of the sldownloader normalization and number-reconciliation
pipeline (main.go, scryfall.go).  Strings are modelled as `List Char`
(Go strings are byte sequences; we keep the character sequence and use
UTF-8 byte lengths where Go's `len` matters).
-/

set_option maxRecDepth 8000

/-- Convert a Lean string literal to the list-of-characters model. -/
def strL (s : String) : List Char := s.data

/-- Go `len(s)`: UTF-8 byte length of a string. -/
def lenB : List Char → Nat
  | [] => 0
  | c :: rest => c.utf8Size + lenB rest

/-- ASCII lowercase, matching Go `strings.ToLower` on the ASCII strings used here. -/
def lowerL (s : List Char) : List Char := s.map Char.toLower

/-- First occurrence of `pat` in `s`: returns the part before and after it. -/
def findSplit (pat : List Char) : List Char → Option (List Char × List Char)
  | [] => none
  | c :: rest =>
    if pat.isPrefixOf (c :: rest) then some ([], (c :: rest).drop pat.length)
    else
      match findSplit pat rest with
      | some (pre, post) => some (c :: pre, post)
      | none => none

/-- Go `strings.Contains(s, pat)` (for nonempty `pat`). -/
def containsSubL (s pat : List Char) : Bool := (findSplit pat s).isSome

/-- Fueled worker for `splitOnL`. -/
def splitOnLAux (pat : List Char) : Nat → List Char → List (List Char)
  | 0, s => [s]
  | fuel + 1, s =>
    match findSplit pat s with
    | none => [s]
    | some (pre, post) => pre :: splitOnLAux pat fuel post

/-- Go `strings.Split(s, pat)` for nonempty `pat`. -/
def splitOnL (s pat : List Char) : List (List Char) :=
  if pat.isEmpty then [s] else splitOnLAux pat s.length s

/-- Fueled worker for `replaceAllL`. -/
def replaceAllAux (pat new : List Char) : Nat → List Char → List Char
  | 0, s => s
  | fuel + 1, s =>
    match findSplit pat s with
    | none => s
    | some (pre, post) => pre ++ new ++ replaceAllAux pat new fuel post

/-- Go `strings.Replace(s, pat, new, -1)` for nonempty `pat`:
left-to-right non-overlapping replacement, continuing after each match. -/
def replaceAllL (s pat new : List Char) : List Char :=
  if pat.isEmpty then s else replaceAllAux pat new s.length s

/-- Go `strings.Replace(s, pat, new, 1)`: replace the first occurrence only. -/
def replaceFirstL (s pat new : List Char) : List Char :=
  match findSplit pat s with
  | none => s
  | some (pre, post) => pre ++ new ++ post

/-- Go `strings.HasSuffix`. -/
def hasSuffixL (s pat : List Char) : Bool := pat.isSuffixOf s

/-- Go `strings.TrimSpace` (ASCII/Lean whitespace model). -/
def trimL (s : List Char) : List Char :=
  ((s.dropWhile Char.isWhitespace).reverse.dropWhile Char.isWhitespace).reverse

/-- Right-trim only (used to reason about `trimL`). -/
def trimRightL (s : List Char) : List Char :=
  (s.reverse.dropWhile Char.isWhitespace).reverse

/-- Go `strings.TrimLeft(s, cutset)` for a single-character cutset. -/
def trimLeftC (c : Char) (s : List Char) : List Char := s.dropWhile (fun d => d == c)

/-- Go `strings.TrimRight(s, cutset)` for a single-character cutset. -/
def trimRightC (c : Char) (s : List Char) : List Char :=
  (s.reverse.dropWhile (fun d => d == c)).reverse

/-- Worker for Go `strings.Fields`. -/
def fieldsAux : List Char → List Char → List (List Char)
  | [], acc => if acc.isEmpty then [] else [acc.reverse]
  | c :: rest, acc =>
    if c.isWhitespace then
      if acc.isEmpty then fieldsAux rest [] else acc.reverse :: fieldsAux rest []
    else fieldsAux rest (c :: acc)

/-- Go `strings.Fields`: split around runs of whitespace. -/
def fieldsL (s : List Char) : List (List Char) := fieldsAux s []

/-- Decimal digits of a natural number (fueled). -/
def natDigitsAux : Nat → Nat → List Char → List Char
  | 0, _, acc => acc
  | fuel + 1, n, acc =>
    if n < 10 then Char.ofNat (48 + n) :: acc
    else natDigitsAux fuel (n / 10) (Char.ofNat (48 + n % 10) :: acc)

/-- Decimal representation of a natural number. -/
def natToStr (n : Nat) : List Char := natDigitsAux (n + 1) n []

/-- Go `fmt.Sprint` on an `int`: decimal representation with a leading minus sign. -/
def intToStr (i : Int) : List Char :=
  if i < 0 then '-' :: natToStr i.natAbs else natToStr i.toNat

/-- Value of a nonempty all-digit string (`none` otherwise); worker. -/
def digitsValAux : List Char → Nat → Option Nat
  | [], acc => some acc
  | c :: rest, acc =>
    if c.isDigit then digitsValAux rest (acc * 10 + (c.toNat - 48)) else none

/-- Value of a nonempty all-digit string, `none` if empty or non-digit present. -/
def digitsVal (cs : List Char) : Option Nat :=
  if cs.isEmpty then none else digitsValAux cs 0

/-- Syntactic part of Go `strconv.Atoi`: optional sign, then digits.
Returns the sign (`true` = negative) and the magnitude. -/
def atoiRaw (s : List Char) : Option (Bool × Nat) :=
  match s with
  | '+' :: rest => (digitsVal rest).map (fun n => (false, n))
  | '-' :: rest => (digitsVal rest).map (fun n => (true, n))
  | _ => (digitsVal s).map (fun n => (false, n))

/-- Go `strconv.Atoi(s)` when the caller checks `err == nil`:
`some` exactly on syntactically valid, 64-bit-range integers. -/
def atoiCheck (s : List Char) : Option Int :=
  match atoiRaw s with
  | none => none
  | some (neg, n) =>
    if neg then (if n ≤ 2 ^ 63 then some (-(n : Int)) else none)
    else (if n ≤ 2 ^ 63 - 1 then some (n : Int) else none)

/-- Go `strconv.Atoi(s)` when the caller ignores the error: 0 on a syntax
error, the clamped extreme on a range error, the value otherwise. -/
def atoiGo (s : List Char) : Int :=
  match atoiRaw s with
  | none => 0
  | some (neg, n) =>
    if neg then -((min n (2 ^ 63) : Nat) : Int) else ((min n (2 ^ 63 - 1) : Nat) : Int)

/-- Two's-complement wrap-around of Go 64-bit `int` arithmetic. -/
def wrap64 (x : Int) : Int := (x + 2 ^ 63) % 2 ^ 64 - 2 ^ 63

/-- Go integer division: truncation toward zero. -/
def goDiv (a b : Int) : Int := a.sign * b.sign * ((a.natAbs / b.natAbs : Nat) : Int)

/-! ## Data model (main.go `CardData`, scryfall card records, OCR pass inputs) -/

/-- main.go `CardData`: one Item of a Product. -/
structure CardData where
  name : List Char
  number : List Char
  foil : Bool
  etched : Bool
  token : Bool
deriving DecidableEq, Inhabited

/-- The fields of a scryfall card record used by `search` (scryfall.go):
`cardFaces` is the number of entries of the record's card-face array. -/
structure ScryCard where
  name : List Char
  collectorNumber : List Char
  cardFaces : Nat
  typeLine : List Char
  promoTypes : List (List Char)
deriving DecidableEq

/-- Outcome of one `figure a` gallery element in the OCR pass of
`scrapeProduct`: missing `href`, a failed fetch/OCR call, or the string
returned by `getNumberFromLink`. -/
inductive ImgResult where
  | noHref : ImgResult
  | ocrErr : ImgResult
  | ocrNum : List Char → ImgResult
deriving DecidableEq

/-! ## Image-based number extraction (main.go `extractNumber`, `getNumberFromLink`) -/

/-- A recognized token that is exactly one of the two terminator glyphs. -/
def isTermTok (f : List Char) : Bool := f == strL "™" || f == strL "©"

/-- A token that `extractNumber` accepts at minimum length `minLen`: byte
length above `minLen` and `strconv.Atoi` succeeds. -/
def qualTok (minLen : Nat) (f : List Char) : Bool :=
  decide (minLen < lenB f) && (atoiCheck f).isSome

/-- main.go `extractNumber`: scan tokens in order; a terminator glyph token
ends the scan; otherwise return the first token of byte length above
`minLen` that `strconv.Atoi` accepts. -/
def extractNumber : List (List Char) → Nat → List Char
  | [], _ => []
  | f :: rest, minLen =>
    if isTermTok f then []
    else if qualTok minLen f then f
    else extractNumber rest minLen

/-- The pure tail of main.go `getNumberFromLink`: try `extractNumber` with
minimum length 3, then relax to 2. -/
def numFromFields (fields : List (List Char)) : List Char :=
  let n := extractNumber fields 3
  if n = [] then extractNumber fields 2 else n

/-! ## Line canonicalization (main.go `cleanLine`) -/

/-- The Unicode look-alike normalization at the top of `cleanLine`
(non-breaking space, curly quotes); each rule is single character to
single character, so the sequential replaces are one character map. -/
def normChar (c : Char) : Char :=
  if c = Char.ofNat 160 then ' '
  else if c = '’' then '\''
  else if c = '”' then '"'
  else if c = '“' then '"'
  else c

/-- The Unicode normalization of `cleanLine` applied to a whole line. -/
def normU (s : List Char) : List Char := s.map normChar

/-- The fixed denylist of decorative tags removed by `cleanLine`. -/
def tagStrs : List (List Char) :=
  [strL "Full-Text", strL "Full-Art", strL "Full-art", strL "Alt-Art",
   strL "Reversible", strL "Old Frame", strL "Retro Frame",
   strL "Poster", strL "Stained Glass",
   strL "Foil-etched", strL "Etched", strL "Foil", strL "Tokens", strL "Token",
   strL "Different", strL "Hand-Drawn", strL "Borderless",
   strL "Showcase", strL "Left-Handed", strL "Edition", strL "cards", strL "Japanese",
   strL "Regular Human Guy", strL "Ichor-E", strL "DFC", strL "Italian-language",
   strL "*"]

/-- One denylist pass: for each tag in order, remove all occurrences of the
tag and then of its lowercase form. -/
def stripTags (tags : List (List Char)) (s : List Char) : List Char :=
  tags.foldl (fun acc tag => replaceAllL (replaceAllL acc tag []) (lowerL tag) []) s

/-- The denylist-stripping step of `cleanLine`. -/
def removeTagsL (s : List Char) : List Char := stripTags tagStrs s

/-- Error message of `cleanLine` when the line does not split into two fields. -/
def msgFormat : List Char := strL "unexpected line format"

/-- Error message of `cleanLine` when the count does not parse. -/
def msgNumber : List Char := strL "invalid number in line"

/-- main.go `cleanLine`: canonical name and repeat count of one raw line. -/
def cleanLineL (line : List Char) : Except (List Char) (List Char × Int) :=
  let l0 := trimL (normU line)
  let fields := splitOnL l0 (strL "x ")
  if fields.length ≠ 2 then .error msgFormat
  else
    match atoiCheck (fields.getD 0 []) with
    | none => .error msgNumber
    | some num =>
      let c0 := trimL (fields.getD 1 [])
      let c1 := if containsSubL c0 (strL "(") then (splitOnL c0 (strL "(")).headD [] else c0
      let c2 :=
        if containsSubL c1 (strL "Foil") ∧ ¬hasSuffixL c1 (strL "Foil Edition")
            ∧ ¬hasSuffixL c1 (strL "Foil Etched")
        then (splitOnL c1 (strL "Foil")).getD 1 [] else c1
      let c3 :=
        if ¬containsSubL c2 (strL "Tower") ∧ ¬containsSubL c2 (strL "Crusader")
            ∧ ¬containsSubL c2 (strL "Unlife")
        then replaceAllL c2 (strL "Phyrexian") [] else c2
      let c4 := removeTagsL c3
      let c5 := if containsSubL c4 (strL " as ") then (splitOnL c4 (strL " as ")).headD [] else c4
      let c6 := if containsSubL c5 (strL " by ") then (splitOnL c5 (strL " by ")).headD [] else c5
      let c7 :=
        if containsSubL c6 (strL " with art")
        then (splitOnL c6 (strL " with art")).headD [] else c6
      let c8 :=
        if containsSubL c7 (strL "//") ∧ ¬containsSubL c7 (strL " // ")
        then replaceAllL c7 (strL "//") (strL " // ") else c7
      let c9 := (splitOnL c8 (strL " // ")).headD []
      let c10 := replaceAllL c9 (strL "Sticker Sheets") (strL "Sticker sheet")
      let c11 := replaceAllL c10 (strL "Xenegos") (strL "Xenagos")
      .ok (trimL c11, num)

/-- The per-line Item-building step of `scrapeProduct` (lines 261-284):
a failed `cleanLine` yields no Items; otherwise the card (flags derived by
case-insensitive substring tests on the raw line) is appended `num` times,
with the `Astrology Lands` special case breaking after the first append. -/
def itemsForLine (title line : List Char) : List CardData :=
  match cleanLineL line with
  | .error _ => []
  | .ok (nm, num) =>
    let card : CardData :=
      { name := nm, number := [],
        foil := containsSubL (lowerL line) (strL "foil"),
        etched := containsSubL (lowerL line) (strL "etched"),
        token := containsSubL (lowerL line) (strL "token") }
    if containsSubL title (strL "Astrology Lands")
    then List.replicate (min num.toNat 1) card
    else List.replicate num.toNat card

/-! ## Title canonicalization (main.go `cleanTitle`) -/

/-- main.go `replacerStrings`: the ordered pairs of the title replacer. -/
def replacerPairs : List (List Char × List Char) :=
  [([Char.ofNat 160], strL " "),
   (strL "’", strL "'"),
   (strL "‘", strL "'"),
   (strL "®", []),
   (strL "™", []),
   (strL "<", []),
   (strL ">", []),
   (strL "/", []),
   (strL "\\", []),
   (strL "*", []),
   (strL " - ", strL " "),
   (strL "Regular", []),
   (strL "DD ", []),
   (strL "Secret Lair x ", []),
   (strL "(English)", []),
   (strL "English", []),
   (strL " EN", []),
   (strL "   ", strL " "),
   (strL "  ", strL " ")]

/-- First replacer pair matching at the current position (argument order
decides ties, as in Go `strings.NewReplacer`). -/
def tryPairs (pairs : List (List Char × List Char)) (s : List Char) :
    Option (List Char × List Char) :=
  match pairs with
  | [] => none
  | (old, new) :: rest =>
    if ¬old.isEmpty ∧ old.isPrefixOf s then some (new, s.drop old.length)
    else tryPairs rest s

/-- Fueled worker for `goReplace`. -/
def goReplaceAux (pairs : List (List Char × List Char)) : Nat → List Char → List Char
  | 0, s => s
  | _, [] => []
  | fuel + 1, c :: rest =>
    match tryPairs pairs (c :: rest) with
    | some (new, remaining) => new ++ goReplaceAux pairs fuel remaining
    | none => c :: goReplaceAux pairs fuel rest

/-- Go `strings.Replacer.Replace` with `replacerPairs`: a single left-to-right
pass, non-overlapping, earliest-argument pair preferred at each position. -/
def goReplace (s : List Char) : List Char := goReplaceAux replacerPairs s.length s

/-- main.go `cleanTitle`: the (filename, display title) pair of a raw title. -/
def cleanTitleL (title : List Char) : List Char × List Char :=
  let t1 :=
    if containsSubL title (strL "|") then
      let t := (splitOnL title (strL " | ")).headD []
      if hasSuffixL title (strL "Foil Edition") then t ++ strL " Foil Edition" else t
    else title
  let t2 := goReplace t1
  let t3 :=
    if ¬containsSubL t2 (strL "High") then replaceFirstL t2 (strL "Secret Lair ") []
    else t2
  let t4 := replaceFirstL t3 (strL "S.P.E.C.I.A.L.") (strL "SPECIAL")
  let t5 := if hasSuffixL t4 (strL "Foil") then t4 ++ strL " Edition" else t4
  let originalName := trimL t5
  let filename := trimL (replaceAllL t5 (strL ":") (strL "-"))
  (filename, originalName)

/-! ## Authoritative-source filtering (scryfall.go `search`) -/

/-- The per-record body of the loop in scryfall.go `search`: `none` when the
record is excluded, otherwise the derived map entry. -/
def processOne (card : ScryCard) : Option CardData :=
  if card.promoTypes.contains (strL "sldbonus") then none
  else if hasSuffixL card.collectorNumber (strL "★") then none
  else
    let nm := (splitOnL card.name (strL " // ")).headD []
    let number := card.collectorNumber ++ (if 0 < card.cardFaces then strL "a" else [])
    some { name := nm, number := number, foil := false, etched := false,
           token := containsSubL card.typeLine (strL "Token") }

/-- scryfall.go `search`: the retained name→number records, in order. -/
def searchResults (cards : List ScryCard) : List CardData := cards.filterMap processOne

/-! ## Fold-mode detection and the OCR image pass (main.go `scrapeProduct`) -/

/-- The paren-stripping of the gallery count: `TrimLeft`/`TrimRight` with
cutsets `"("` and `")"`. -/
def trimParen (s : List Char) : List Char := trimRightC ')' (trimLeftC '(' s)

/-- Fold-mode detection of `scrapeProduct` (lines 350-361): the gallery title
must contain `" ("`; the last whitespace-separated field, stripped of parens
and parsed with `Atoi` (error ignored), halved by Go integer division, must
equal the card count. -/
def detectFoldMode (galleryTitle : List Char) (numCards : Nat) : Bool :=
  if containsSubL galleryTitle (strL " (") then
    goDiv (atoiGo (trimParen ((fieldsL galleryTitle).getLastD []))) 2 == (numCards : Int)
  else false

/-- Set the number of the card at index `j` (Go `cards[i].Number = num`). -/
def setCardNumber : List CardData → Nat → List Char → List CardData
  | [], _, _ => []
  | c :: rest, 0, num => { c with number := num } :: rest
  | c :: rest, j + 1, num => c :: setCardNumber rest j num

/-- The OCR image pass of `scrapeProduct` (lines 364-393): one step per
`figure a` element, with the fold-mode index halving, the early break when
the index reaches the card count, the skip of already-numbered cards, and
the skip of missing links and failed OCR calls. -/
def ocrGo (foldMode : Bool) : List CardData → Nat → List ImgResult → List CardData
  | cards, _, [] => cards
  | cards, i, img :: rest =>
    if cards.length ≤ (if foldMode then i / 2 else i) then cards
    else if ¬(cards.getD (if foldMode then i / 2 else i) default).number.isEmpty then
      ocrGo foldMode cards (i + 1) rest
    else
      match img with
      | .noHref => ocrGo foldMode cards (i + 1) rest
      | .ocrErr => ocrGo foldMode cards (i + 1) rest
      | .ocrNum s =>
        ocrGo foldMode (setCardNumber cards (if foldMode then i / 2 else i) s) (i + 1) rest

/-- The OCR image pass from the first image. -/
def ocrPass (foldMode : Bool) (cards : List CardData) (imgs : List ImgResult) :
    List CardData := ocrGo foldMode cards 0 imgs

/-! ## Number backfill (main.go `scrapeProduct`, lines 396-429) -/

/-- The longest-number scan: fold over the cards keeping the number of
strictly greatest byte length (first wins on ties) and its position. -/
def findLongestAux : List CardData → Nat → List Char × Int → List Char × Int
  | [], _, acc => acc
  | c :: rest, i, (num, pos) =>
    if ¬c.number.isEmpty ∧ lenB num < lenB c.number
    then findLongestAux rest (i + 1) (c.number, (i : Int))
    else findLongestAux rest (i + 1) (num, pos)

/-- The backfill assignment loop: every card at offset `j` from the start
gets `fmt.Sprint(cn + j - pos)` (64-bit wrap-around made explicit). -/
def assignAll (cn pos : Int) : List CardData → Nat → List CardData
  | [], _ => []
  | c :: rest, j =>
    { c with number := intToStr (wrap64 (cn + (j : Int) - pos)) } :: assignAll cn pos rest (j + 1)

/-- The backfill block of `scrapeProduct`: when not every card has a number,
find the longest found number and its position; if there is one, parse it
after stripping leading zeros (error ignored); if the value is positive,
assign every card's number by positional offset from the anchor. -/
def backfillStep (cards : List CardData) : List CardData :=
  if cards.countP (fun c => !c.number.isEmpty) = cards.length then cards
  else if (findLongestAux cards 0 ([], -1)).1.isEmpty then cards
  else if 0 < atoiGo (trimLeftC '0' (findLongestAux cards 0 ([], -1)).1) then
    assignAll (atoiGo (trimLeftC '0' (findLongestAux cards 0 ([], -1)).1))
      (findLongestAux cards 0 ([], -1)).2 cards 0
  else cards

/-! ## General lemmas about the string model -/

deriving instance DecidableEq for Except

theorem lenB_pos (s : List Char) (h : s ≠ []) : 0 < lenB s := by
  cases s with
  | nil => exact absurd rfl h
  | cons c rest =>
    have hc : 0 < c.utf8Size := Char.utf8Size_pos c
    simp only [lenB]
    omega

theorem findSplit_cons (pat : List Char) (c : Char) (rest : List Char) :
    findSplit pat (c :: rest) =
      if pat.isPrefixOf (c :: rest) = true then some ([], (c :: rest).drop pat.length)
      else
        match findSplit pat rest with
        | some (pre, post) => some (c :: pre, post)
        | none => none := rfl

theorem findSplit_cons_self (c0 : Char) (pt post : List Char) :
    findSplit (c0 :: pt) (c0 :: (pt ++ post)) = some ([], post) := by
  have h1 : (c0 :: pt).isPrefixOf (c0 :: (pt ++ post)) = true := by
    rw [List.isPrefixOf_iff_prefix]
    exact List.prefix_append (c0 :: pt) post
  rw [findSplit_cons, if_pos h1]
  simp only [List.length_cons, List.drop_succ_cons, List.drop_left]

theorem findSplit_of_head_free (c0 : Char) (pt ds post : List Char)
    (hds : ∀ d ∈ ds, d ≠ c0) :
    findSplit (c0 :: pt) (ds ++ ((c0 :: pt) ++ post)) = some (ds, post) := by
  induction ds with
  | nil =>
    have : ([] : List Char) ++ ((c0 :: pt) ++ post) = c0 :: (pt ++ post) := by simp
    rw [this, findSplit_cons_self]
  | cons d ds' ih =>
    have hd : d ≠ c0 := hds d (List.mem_cons_self d ds')
    have hnp : (c0 :: pt).isPrefixOf (d :: (ds' ++ ((c0 :: pt) ++ post))) = false := by
      simp [List.isPrefixOf, Ne.symm hd]
    rw [List.cons_append, findSplit_cons, hnp]
    simp only [Bool.false_eq_true, if_false]
    rw [ih (fun x hx => hds x (List.mem_cons_of_mem d hx))]

theorem findSplit_decomp (pat s pre post : List Char)
    (h : findSplit pat s = some (pre, post)) : s = pre ++ pat ++ post := by
  induction s generalizing pre post with
  | nil => simp [findSplit] at h
  | cons c rest ih =>
    rw [findSplit_cons] at h
    by_cases hpre : pat.isPrefixOf (c :: rest) = true
    · rw [if_pos hpre] at h
      obtain ⟨t, ht⟩ : pat <+: c :: rest := List.isPrefixOf_iff_prefix.mp hpre
      simp only [Option.some.injEq, Prod.mk.injEq] at h
      obtain ⟨h1, h2⟩ := h
      subst h1
      rw [← ht, ← h2, ← ht, List.drop_left]
      simp
    · rw [if_neg hpre] at h
      rcases hfr : findSplit pat rest with _ | ⟨p2, q2⟩
      · rw [hfr] at h; simp at h
      · rw [hfr] at h
        simp only [Option.some.injEq, Prod.mk.injEq] at h
        obtain ⟨h1, h2⟩ := h
        subst h2
        rw [← h1]
        simp [ih p2 q2 hfr]

theorem findSplit_isSome_of_decomp (pat pre post : List Char) (hpat : pat ≠ []) :
    (findSplit pat (pre ++ pat ++ post)).isSome = true := by
  induction pre with
  | nil =>
    cases pat with
    | nil => exact absurd rfl hpat
    | cons c0 pt =>
      have : ([] : List Char) ++ (c0 :: pt) ++ post = c0 :: (pt ++ post) := by simp
      rw [this, findSplit_cons_self]
      rfl
  | cons c pre' ih =>
    have hsh : (c :: pre') ++ pat ++ post = c :: (pre' ++ pat ++ post) := by simp
    rw [hsh, findSplit_cons]
    by_cases hpre : pat.isPrefixOf (c :: (pre' ++ pat ++ post)) = true
    · rw [if_pos hpre]; rfl
    · rw [if_neg hpre]
      obtain ⟨⟨p2, q2⟩, hsome⟩ := Option.isSome_iff_exists.mp ih
      rw [hsome]
      rfl

theorem containsSubL_append_left (a t pat : List Char) (hpat : pat ≠ [])
    (h : containsSubL a pat = true) : containsSubL (a ++ t) pat = true := by
  obtain ⟨⟨pre, post⟩, hsome⟩ := Option.isSome_iff_exists.mp h
  have hdec := findSplit_decomp pat a pre post hsome
  have : a ++ t = pre ++ pat ++ (post ++ t) := by rw [hdec]; simp
  rw [containsSubL, this]
  exact findSplit_isSome_of_decomp pat pre (post ++ t) hpat

theorem splitOnLAux_of_none (pat s : List Char) (h : findSplit pat s = none) :
    ∀ fuel, splitOnLAux pat fuel s = [s] := by
  intro fuel
  cases fuel with
  | zero => rfl
  | succ n => simp [splitOnLAux, h]

theorem splitOnL_pair (pat ds post : List Char) (hpat : pat ≠ [])
    (hfs : findSplit pat (ds ++ (pat ++ post)) = some (ds, post))
    (hpost : containsSubL post pat = false) :
    splitOnL (ds ++ (pat ++ post)) pat = [ds, post] := by
  have hfp : findSplit pat post = none := by
    rcases hx : findSplit pat post with _ | y
    · rfl
    · rw [containsSubL, hx] at hpost; simp at hpost
  have hpe : pat.isEmpty = false := by
    cases pat with
    | nil => exact absurd rfl hpat
    | cons a b => rfl
  have hlen : ∃ n, (ds ++ (pat ++ post)).length = n + 1 := by
    cases pat with
    | nil => exact absurd rfl hpat
    | cons a b =>
      refine ⟨ds.length + b.length + post.length, ?_⟩
      simp
      omega
  obtain ⟨n, hn⟩ := hlen
  rw [splitOnL, hpe]
  simp only [Bool.false_eq_true, if_false, hn, splitOnLAux, hfs]
  rw [splitOnLAux_of_none pat post hfp]

theorem replaceAllAux_of_none (pat new s : List Char) (h : findSplit pat s = none) :
    ∀ fuel, replaceAllAux pat new fuel s = s := by
  intro fuel
  cases fuel with
  | zero => rfl
  | succ n => simp [replaceAllAux, h]

theorem replaceAllL_of_not_contains (s pat new : List Char)
    (h : containsSubL s pat = false) : replaceAllL s pat new = s := by
  have hfp : findSplit pat s = none := by
    rcases hx : findSplit pat s with _ | y
    · rfl
    · rw [containsSubL, hx] at h; simp at h
  rw [replaceAllL]
  split
  · rfl
  · exact replaceAllAux_of_none pat new s hfp _

theorem stripTags_of_clean (tags : List (List Char)) (s : List Char)
    (h : ∀ t ∈ tags, containsSubL s t = false ∧ containsSubL s (lowerL t) = false) :
    stripTags tags s = s := by
  induction tags with
  | nil => rfl
  | cons t ts ih =>
    have ht := h t (List.mem_cons_self t ts)
    simp only [stripTags, List.foldl_cons]
    rw [replaceAllL_of_not_contains s t [] ht.1,
      replaceAllL_of_not_contains s (lowerL t) [] ht.2]
    exact ih (fun x hx => h x (List.mem_cons_of_mem t hx))

theorem extractNumber_eq (fields : List (List Char)) (minLen : Nat) :
    extractNumber fields minLen
      = ((fields.takeWhile (fun f => !isTermTok f)).find? (qualTok minLen)).getD [] := by
  induction fields with
  | nil => rfl
  | cons f rest ih =>
    by_cases hterm : isTermTok f = true
    · simp [extractNumber, hterm, List.takeWhile_cons]
    · have hterm' : isTermTok f = false := by revert hterm; cases isTermTok f <;> simp
      by_cases hq : qualTok minLen f = true
      · simp [extractNumber, hterm', hq, List.takeWhile_cons, List.find?_cons]
      · have hq' : qualTok minLen f = false := by revert hq; cases qualTok minLen f <;> simp
        simp [extractNumber, hterm', hq', List.takeWhile_cons, List.find?_cons, ih]

theorem dropWhileWs_append_of_exists (p : Char → Bool) (xs ys : List Char)
    (h : ∃ x ∈ xs, p x = false) :
    (xs ++ ys).dropWhile p = xs.dropWhile p ++ ys := by
  induction xs with
  | nil => simp at h
  | cons c xs' ih =>
    by_cases hc : p c = true
    · simp only [List.cons_append, List.dropWhile_cons, hc, if_true]
      apply ih
      obtain ⟨x, hx, hpx⟩ := h
      rcases List.mem_cons.mp hx with rfl | hx'
      · rw [hpx] at hc; simp at hc
      · exact ⟨x, hx', hpx⟩
    · have hc' : p c = false := by revert hc; cases p c <;> simp
      simp [List.dropWhile_cons, hc']

theorem trimRightL_append (a nm : List Char) (h : ∃ x ∈ nm, x.isWhitespace = false) :
    trimRightL (a ++ nm) = a ++ trimRightL nm := by
  unfold trimRightL
  rw [List.reverse_append]
  rw [dropWhileWs_append_of_exists _ _ _
    (by obtain ⟨x, hx, hpx⟩ := h; exact ⟨x, List.mem_reverse.mpr hx, hpx⟩)]
  simp [List.reverse_append]

theorem trimRightL_prefix (nm : List Char) : ∃ t, nm = trimRightL nm ++ t := by
  refine ⟨(nm.reverse.takeWhile Char.isWhitespace).reverse, ?_⟩
  calc nm = nm.reverse.reverse := by simp
    _ = (List.takeWhile Char.isWhitespace nm.reverse
          ++ List.dropWhile Char.isWhitespace nm.reverse).reverse := by
        rw [List.takeWhile_append_dropWhile]
    _ = (List.dropWhile Char.isWhitespace nm.reverse).reverse
          ++ (List.takeWhile Char.isWhitespace nm.reverse).reverse := by
        rw [List.reverse_append]
    _ = trimRightL nm ++ (nm.reverse.takeWhile Char.isWhitespace).reverse := rfl

theorem containsSubL_trimRight (nm pat : List Char) (hpat : pat ≠ [])
    (h : containsSubL (trimRightL nm) pat = true) : containsSubL nm pat = true := by
  obtain ⟨t, ht⟩ := trimRightL_prefix nm
  rw [ht]
  exact containsSubL_append_left _ t pat hpat h

theorem trimL_eq (s : List Char) : trimL s = trimRightL (s.dropWhile Char.isWhitespace) :=
  rfl

theorem trimL_line (d : Char) (ds nm : List Char) (hd : d.isWhitespace = false)
    (h : ∃ x ∈ nm, x.isWhitespace = false) :
    trimL ((d :: ds) ++ (strL "x " ++ nm)) = (d :: ds) ++ (strL "x " ++ trimRightL nm) := by
  rw [trimL_eq]
  have h1 : ((d :: ds) ++ (strL "x " ++ nm)).dropWhile Char.isWhitespace
      = (d :: ds) ++ (strL "x " ++ nm) := by
    simp [List.dropWhile_cons, hd]
  rw [h1]
  have h2 : (d :: ds) ++ (strL "x " ++ nm) = ((d :: ds) ++ strL "x ") ++ nm := by simp
  rw [h2, trimRightL_append _ _ h, List.append_assoc]

theorem normChar_digit (c : Char) (h : c.isDigit = true) : normChar c = c := by
  unfold normChar
  split_ifs with h1 h2 h3 h4
  · rw [h1] at h; exact absurd h (by decide)
  · rw [h2] at h; exact absurd h (by decide)
  · rw [h3] at h; exact absurd h (by decide)
  · rw [h4] at h; exact absurd h (by decide)
  · rfl

theorem normU_digits (ds : List Char) (h : ∀ d ∈ ds, d.isDigit = true) : normU ds = ds := by
  induction ds with
  | nil => rfl
  | cons d rest ih =>
    simp only [normU, List.map_cons]
    rw [normChar_digit d (h d (List.mem_cons_self d rest))]
    have : normU rest = rest := ih (fun x hx => h x (List.mem_cons_of_mem d hx))
    rw [normU] at this
    rw [this]

theorem digit_ne_x (d : Char) (h : d.isDigit = true) : d ≠ 'x' := by
  intro he
  rw [he] at h
  exact absurd h (by decide)

theorem digit_not_ws (d : Char) (h : d.isDigit = true) : d.isWhitespace = false := by
  cases hw : d.isWhitespace with
  | false => rfl
  | true =>
    exfalso
    simp [Char.isWhitespace] at hw
    rcases hw with ((h1 | h1) | h1) | h1 <;> (rw [h1] at h; exact absurd h (by decide))

/-! ## Lemmas about the OCR image pass -/

theorem setCardNumber_length (cards : List CardData) (k : Nat) (s : List Char) :
    (setCardNumber cards k s).length = cards.length := by
  induction cards generalizing k with
  | nil => rfl
  | cons c rest ih =>
    cases k with
    | zero => rfl
    | succ k2 => simp [setCardNumber, ih]

theorem setCardNumber_getD_ne (cards : List CardData) (k j : Nat) (s : List Char)
    (h : k ≠ j) : (setCardNumber cards k s).getD j default = cards.getD j default := by
  induction cards generalizing k j with
  | nil => rfl
  | cons c rest ih =>
    cases k with
    | zero =>
      cases j with
      | zero => exact absurd rfl h
      | succ j2 => simp [setCardNumber, List.getD_cons_succ]
    | succ k2 =>
      cases j with
      | zero => simp [setCardNumber, List.getD_cons_zero]
      | succ j2 =>
        simp only [setCardNumber, List.getD_cons_succ]
        exact ih k2 j2 (fun he => h (by rw [he]))

theorem setCardNumber_getD_eq (cards : List CardData) (k : Nat) (s : List Char)
    (h : k < cards.length) :
    (setCardNumber cards k s).getD k default
      = { cards.getD k default with number := s } := by
  induction cards generalizing k with
  | nil => simp at h
  | cons c rest ih =>
    cases k with
    | zero => rfl
    | succ k2 =>
      simp only [setCardNumber, List.getD_cons_succ]
      exact ih k2 (by simpa using h)

theorem ocrGo_cons (fm : Bool) (cards : List CardData) (i : Nat) (img : ImgResult)
    (rest : List ImgResult) :
    ocrGo fm cards i (img :: rest) =
      if cards.length ≤ (if fm then i / 2 else i) then cards
      else if ¬(cards.getD (if fm then i / 2 else i) default).number.isEmpty then
        ocrGo fm cards (i + 1) rest
      else
        match img with
        | .noHref => ocrGo fm cards (i + 1) rest
        | .ocrErr => ocrGo fm cards (i + 1) rest
        | .ocrNum s =>
          ocrGo fm (setCardNumber cards (if fm then i / 2 else i) s) (i + 1) rest := rfl

theorem ocrGo_preserves (imgs : List ImgResult) (fm : Bool) (cards : List CardData)
    (i j : Nat) (hj : j < cards.length) (hne : (cards.getD j default).number ≠ []) :
    (ocrGo fm cards i imgs).getD j default = cards.getD j default := by
  induction imgs generalizing cards i with
  | nil => rfl
  | cons img rest ih =>
    rw [ocrGo_cons]
    by_cases hbound : cards.length ≤ (if fm then i / 2 else i)
    · rw [if_pos hbound]
    · rw [if_neg hbound]
      by_cases hfull : ¬(cards.getD (if fm then i / 2 else i) default).number.isEmpty
      · rw [if_pos hfull]
        exact ih cards (i + 1) hj hne
      · rw [if_neg hfull]
        cases img with
        | noHref => exact ih cards (i + 1) hj hne
        | ocrErr => exact ih cards (i + 1) hj hne
        | ocrNum s =>
          have hjj : (if fm then i / 2 else i) ≠ j := by
            intro he
            apply hne
            have : (cards.getD (if fm then i / 2 else i) default).number.isEmpty = true := by
              by_contra hx
              exact hfull (by simpa using hx)
            rw [he] at this
            exact List.isEmpty_iff.mp this
          have hgd : (setCardNumber cards (if fm then i / 2 else i) s).getD j default
              = cards.getD j default := setCardNumber_getD_ne cards _ j s hjj
          have hlen : j < (setCardNumber cards (if fm then i / 2 else i) s).length := by
            rw [setCardNumber_length]; exact hj
          rw [ih (setCardNumber cards (if fm then i / 2 else i) s) (i + 1) hlen
            (by rw [hgd]; exact hne), hgd]

/-! ## Lemmas about the backfill pass -/

theorem findLongestAux_cons (c : CardData) (rest : List CardData) (i : Nat)
    (num : List Char) (pos : Int) :
    findLongestAux (c :: rest) i (num, pos) =
      if ¬c.number.isEmpty ∧ lenB num < lenB c.number
      then findLongestAux rest (i + 1) (c.number, (i : Int))
      else findLongestAux rest (i + 1) (num, pos) := rfl

theorem findLongestAux_spec (l : List CardData) :
    ∀ (i0 : Nat) (num : List Char) (pos : Int),
      (findLongestAux l i0 (num, pos) = (num, pos) ∧
        ∀ k, k < l.length → (l.getD k default).number ≠ [] →
          lenB (l.getD k default).number ≤ lenB num)
      ∨ (∃ k, k < l.length ∧
          findLongestAux l i0 (num, pos) = ((l.getD k default).number, ((i0 + k : Nat) : Int)) ∧
          (l.getD k default).number ≠ [] ∧
          lenB num < lenB (l.getD k default).number ∧
          (∀ m, m < l.length → (l.getD m default).number ≠ [] →
            lenB (l.getD m default).number ≤ lenB (l.getD k default).number) ∧
          (∀ m, m < k → (l.getD m default).number ≠ [] →
            lenB (l.getD m default).number < lenB (l.getD k default).number)) := by
  induction l with
  | nil =>
    intro i0 num pos
    left
    exact ⟨rfl, by intro k hk; simp at hk⟩
  | cons c rest ih =>
    intro i0 num pos
    rw [findLongestAux_cons]
    by_cases hcond : ¬c.number.isEmpty ∧ lenB num < lenB c.number
    · rw [if_pos hcond]
      obtain ⟨hce, hclt⟩ := hcond
      have hcne : c.number ≠ [] := by
        intro hx
        exact hce (by simp [hx])
      rcases ih (i0 + 1) c.number (i0 : Int) with ⟨heq, hmax⟩ | ⟨k2, hk2, heq, hne, hlt, hmax, hstrict⟩
      · right
        refine ⟨0, by simp, ?_, by simpa [List.getD_cons_zero] using hcne,
          by simpa [List.getD_cons_zero] using hclt, ?_, ?_⟩
        · rw [heq]
          simp [List.getD_cons_zero]
        · intro m hm hmne
          cases m with
          | zero => simp [List.getD_cons_zero]
          | succ m2 =>
            simp only [List.getD_cons_succ, List.getD_cons_zero] at hmne ⊢
            exact hmax m2 (by simpa using hm) hmne
        · intro m hm
          exact absurd hm (Nat.not_lt_zero m)
      · right
        refine ⟨k2 + 1, by simpa using hk2, ?_, by simpa [List.getD_cons_succ] using hne,
          ?_, ?_, ?_⟩
        · rw [heq]
          simp only [List.getD_cons_succ]
          have hidx : (i0 + 1 + k2 : Nat) = (i0 + (k2 + 1) : Nat) := by omega
          rw [hidx]
        · simp only [List.getD_cons_succ]
          omega
        · intro m hm hmne
          cases m with
          | zero =>
            simp only [List.getD_cons_zero] at hmne ⊢
            simp only [List.getD_cons_succ]
            omega
          | succ m2 =>
            simp only [List.getD_cons_succ] at hmne ⊢
            exact hmax m2 (by simpa using hm) hmne
        · intro m hm hmne
          cases m with
          | zero =>
            simp only [List.getD_cons_zero] at hmne ⊢
            simp only [List.getD_cons_succ]
            omega
          | succ m2 =>
            simp only [List.getD_cons_succ] at hmne ⊢
            exact hstrict m2 (by omega) hmne
    · rw [if_neg hcond]
      have hc2 : c.number ≠ [] → lenB c.number ≤ lenB num := by
        intro hcne
        by_contra hgt
        exact hcond ⟨by simpa [List.isEmpty_iff] using hcne, by omega⟩
      rcases ih (i0 + 1) num pos with ⟨heq, hmax⟩ | ⟨k2, hk2, heq, hne, hlt, hmax, hstrict⟩
      · left
        refine ⟨heq, ?_⟩
        intro k hk hkne
        cases k with
        | zero =>
          simp only [List.getD_cons_zero] at hkne ⊢
          exact hc2 hkne
        | succ k2 =>
          simp only [List.getD_cons_succ] at hkne ⊢
          exact hmax k2 (by simpa using hk) hkne
      · right
        refine ⟨k2 + 1, by simpa using hk2, ?_, by simpa [List.getD_cons_succ] using hne,
          by simpa [List.getD_cons_succ] using hlt, ?_, ?_⟩
        · rw [heq]
          simp only [List.getD_cons_succ]
          have hidx : (i0 + 1 + k2 : Nat) = (i0 + (k2 + 1) : Nat) := by omega
          rw [hidx]
        · intro m hm hmne
          cases m with
          | zero =>
            simp only [List.getD_cons_zero] at hmne ⊢
            simp only [List.getD_cons_succ]
            have := hc2 hmne
            omega
          | succ m2 =>
            simp only [List.getD_cons_succ] at hmne ⊢
            exact hmax m2 (by simpa using hm) hmne
        · intro m hm hmne
          cases m with
          | zero =>
            simp only [List.getD_cons_zero] at hmne ⊢
            simp only [List.getD_cons_succ]
            have := hc2 hmne
            omega
          | succ m2 =>
            simp only [List.getD_cons_succ] at hmne ⊢
            exact hstrict m2 (by omega) hmne

theorem assignAll_length (cn pos : Int) (l : List CardData) :
    ∀ j0, (assignAll cn pos l j0).length = l.length := by
  induction l with
  | nil => intro j0; rfl
  | cons c rest ih => intro j0; simp [assignAll, ih]

theorem assignAll_getD (cn pos : Int) (l : List CardData) :
    ∀ j0 i, i < l.length →
      (assignAll cn pos l j0).getD i default
        = { l.getD i default with
            number := intToStr (wrap64 (cn + ((j0 + i : Nat) : Int) - pos)) } := by
  induction l with
  | nil => intro j0 i hi; simp at hi
  | cons c rest ih =>
    intro j0 i hi
    cases i with
    | zero => simp [assignAll, List.getD_cons_zero]
    | succ i2 =>
      simp only [assignAll, List.getD_cons_succ]
      rw [ih (j0 + 1) i2 (by simpa using hi)]
      have hidx : (j0 + 1 + i2 : Nat) = (j0 + (i2 + 1) : Nat) := by omega
      rw [hidx]

theorem wrap64_eq_self (x : Int) (h1 : -(2 ^ 63) ≤ x) (h2 : x < 2 ^ 63) : wrap64 x = x := by
  have e1 : (2 : Int) ^ 63 = 9223372036854775808 := by norm_num
  have e2 : (2 : Int) ^ 64 = 18446744073709551616 := by norm_num
  unfold wrap64
  rw [e1] at h1 h2 ⊢
  rw [e2]
  rw [Int.emod_eq_of_lt (by omega) (by omega)]
  omega

theorem countP_ne_of_empty (cards : List CardData) (h : ∃ c ∈ cards, c.number = []) :
    cards.countP (fun c => !c.number.isEmpty) ≠ cards.length := by
  intro heq
  obtain ⟨c, hc, hcn⟩ := h
  have := (List.countP_eq_length).mp heq c hc
  rw [hcn] at this
  simp at this

theorem backfillStep_eq_assign (cards : List CardData)
    (hne : cards.countP (fun c => !c.number.isEmpty) ≠ cards.length)
    (num : List Char) (pos : Int)
    (hfl : findLongestAux cards 0 ([], -1) = (num, pos))
    (hnum : num ≠ [])
    (hpos : 0 < atoiGo (trimLeftC '0' num)) :
    backfillStep cards = assignAll (atoiGo (trimLeftC '0' num)) pos cards 0 := by
  unfold backfillStep
  rw [if_neg hne, hfl]
  have hie : ¬(num, pos).1.isEmpty = true := by
    simpa [List.isEmpty_iff] using hnum
  rw [if_neg hie, if_pos hpos]

theorem backfillStep_number (cards : List CardData)
    (hne : cards.countP (fun c => !c.number.isEmpty) ≠ cards.length)
    (num : List Char) (pos : Int)
    (hfl : findLongestAux cards 0 ([], -1) = (num, pos))
    (hnum : num ≠ [])
    (hpos : 0 < atoiGo (trimLeftC '0' num)) :
    ∀ i, i < cards.length →
      ((backfillStep cards).getD i default).number
        = intToStr (wrap64 (atoiGo (trimLeftC '0' num) + (i : Int) - pos)) := by
  intro i hi
  rw [backfillStep_eq_assign cards hne num pos hfl hnum hpos,
    assignAll_getD _ _ _ 0 i hi]
  simp

/-! ## Lemmas about `cleanLineL` on well-shaped lines -/

theorem splitOnL_shaped (ds nm : List Char) (v : Int)
    (hdig : ∀ d ∈ ds, d.isDigit = true)
    (hv : atoiCheck ds = some v)
    (hx : containsSubL (normU nm) (strL "x ") = false)
    (hw : ∃ x ∈ normU nm, x.isWhitespace = false) :
    splitOnL (trimL (normU (ds ++ (strL "x " ++ nm)))) (strL "x ")
      = [ds, trimRightL (normU nm)] := by
  obtain ⟨d, ds0, rfl⟩ : ∃ d ds0, ds = d :: ds0 := by
    cases ds with
    | nil =>
      have : atoiCheck ([] : List Char) = none := rfl
      rw [this] at hv
      cases hv
    | cons d t => exact ⟨d, t, rfl⟩
  have hnx : normU (strL "x ") = strL "x " := by decide
  have hnorm : normU ((d :: ds0) ++ (strL "x " ++ nm))
      = (d :: ds0) ++ (strL "x " ++ normU nm) := by
    simp only [normU, List.map_append]
    rw [show List.map normChar (d :: ds0) = normU (d :: ds0) from rfl, normU_digits _ hdig,
      show List.map normChar (strL "x ") = normU (strL "x ") from rfl, hnx,
      show List.map normChar nm = normU nm from rfl]
  have hd : d.isWhitespace = false := digit_not_ws d (hdig d (List.mem_cons_self d ds0))
  have htrim : trimL ((d :: ds0) ++ (strL "x " ++ normU nm))
      = (d :: ds0) ++ (strL "x " ++ trimRightL (normU nm)) := trimL_line d ds0 (normU nm) hd hw
  have hshape : strL "x " = 'x' :: [' '] := rfl
  have hfs : findSplit (strL "x ")
      ((d :: ds0) ++ (strL "x " ++ trimRightL (normU nm)))
      = some (d :: ds0, trimRightL (normU nm)) := by
    rw [hshape]
    exact findSplit_of_head_free 'x' [' '] (d :: ds0) (trimRightL (normU nm))
      (fun x hxm => digit_ne_x x (hdig x hxm))
  have hpost : containsSubL (trimRightL (normU nm)) (strL "x ") = false := by
    cases hcc : containsSubL (trimRightL (normU nm)) (strL "x ") with
    | false => rfl
    | true =>
      exact absurd (containsSubL_trimRight (normU nm) _ (by decide) hcc)
        (by rw [hx]; simp)
  rw [hnorm, htrim]
  exact splitOnL_pair (strL "x ") (d :: ds0) (trimRightL (normU nm)) (by decide) hfs hpost

theorem cleanLineL_of_split (line a b : List Char)
    (hsplit : splitOnL (trimL (normU line)) (strL "x ") = [a, b]) :
    (atoiCheck a = none → cleanLineL line = .error msgNumber)
    ∧ (∀ v, atoiCheck a = some v → ∃ nm2, cleanLineL line = .ok (nm2, v)) := by
  constructor
  · intro hnone
    simp only [cleanLineL, hsplit]
    rw [if_neg (by simp)]
    simp only [List.getD_cons_zero, hnone]
  · intro v hsome
    simp only [cleanLineL, hsplit]
    rw [if_neg (by simp)]
    simp only [List.getD_cons_zero, hsome]
    exact ⟨_, rfl⟩

theorem cleanLineL_shaped (ds nm : List Char) (v : Int)
    (hdig : ∀ d ∈ ds, d.isDigit = true)
    (hv : atoiCheck ds = some v)
    (hx : containsSubL (normU nm) (strL "x ") = false)
    (hw : ∃ x ∈ normU nm, x.isWhitespace = false) :
    ∃ nm2, cleanLineL (ds ++ (strL "x " ++ nm)) = .ok (nm2, v) :=
  (cleanLineL_of_split (ds ++ (strL "x " ++ nm)) ds (trimRightL (normU nm))
    (splitOnL_shaped ds nm v hdig hv hx hw)).2 v hv

theorem itemsForLine_shaped (title ds nm : List Char) (v : Int)
    (hdig : ∀ d ∈ ds, d.isDigit = true)
    (hv : atoiCheck ds = some v)
    (hx : containsSubL (normU nm) (strL "x ") = false)
    (hw : ∃ x ∈ normU nm, x.isWhitespace = false)
    (ht : containsSubL title (strL "Astrology Lands") = false) :
    ∃ (nm2 : List Char) (card : CardData),
      cleanLineL (ds ++ (strL "x " ++ nm)) = .ok (nm2, v)
      ∧ card.name = nm2 ∧ card.number = []
      ∧ itemsForLine title (ds ++ (strL "x " ++ nm)) = List.replicate v.toNat card := by
  obtain ⟨nm2, hcl⟩ := cleanLineL_shaped ds nm v hdig hv hx hw
  refine ⟨nm2,
    { name := nm2, number := [],
      foil := containsSubL (lowerL (ds ++ (strL "x " ++ nm))) (strL "foil"),
      etched := containsSubL (lowerL (ds ++ (strL "x " ++ nm))) (strL "etched"),
      token := containsSubL (lowerL (ds ++ (strL "x " ++ nm))) (strL "token") },
    hcl, rfl, rfl, ?_⟩
  simp only [itemsForLine, hcl]
  rw [if_neg (by simp [ht])]

/-! ## Claim theorems -/

/-- Claim C1 (corrected): the image-extraction pass never modifies an Item
already carrying a number, but the backfill pass, whenever its anchor parses
to a positive value, assigns a fresh number to every Item — including Items
whose number is non-empty. -/
theorem number_overwrite_policy :
    (∀ (fm : Bool) (cards : List CardData) (imgs : List ImgResult) (j : Nat),
      j < cards.length → (cards.getD j default).number ≠ [] →
      (ocrPass fm cards imgs).getD j default = cards.getD j default)
    ∧ (∀ (cards : List CardData) (num : List Char) (pos : Int),
        cards.countP (fun c => !c.number.isEmpty) ≠ cards.length →
        findLongestAux cards 0 ([], -1) = (num, pos) →
        num ≠ [] →
        0 < atoiGo (trimLeftC '0' num) →
        ∀ i, i < cards.length →
          ((backfillStep cards).getD i default).number
            = intToStr (wrap64 (atoiGo (trimLeftC '0' num) + (i : Int) - pos))) :=
  ⟨fun fm cards imgs j hj hne => ocrGo_preserves imgs fm cards 0 j hj hne,
   fun cards num pos hcount hfl hnum hpos i hi =>
     backfillStep_number cards hcount num pos hfl hnum hpos i hi⟩

/-- Witness for C1: a numbered card survives the OCR pass, and the backfill
pass rewrites position 1 of the `["012", ""]` product. -/
theorem number_overwrite_policy_witness :
    (ocrPass false [⟨strL "A", strL "7", false, false, false⟩]
        [ImgResult.ocrNum (strL "9")]).getD 0 default
      = ([⟨strL "A", strL "7", false, false, false⟩] : List CardData).getD 0 default
    ∧ ((backfillStep [⟨strL "Bolt", strL "012", false, false, false⟩,
          ⟨strL "Shock", [], false, false, false⟩]).getD 1 default).number
        = intToStr (wrap64 (atoiGo (trimLeftC '0' (strL "012")) + (1 : Int) - 0)) :=
  ⟨number_overwrite_policy.1 false _ _ 0 (by decide) (by decide),
   number_overwrite_policy.2
     [⟨strL "Bolt", strL "012", false, false, false⟩,
      ⟨strL "Shock", [], false, false, false⟩]
     (strL "012") 0 (by decide) (by decide) (by decide) (by decide) 1 (by decide)⟩

/-- Counterexample for C1 as stated: the backfill pass overwrites the
non-empty number `"012"` (it becomes `"12"`). -/
theorem backfill_overwrite_counterexample :
    ((backfillStep [⟨strL "Bolt", strL "012", false, false, false⟩,
        ⟨strL "Shock", [], false, false, false⟩]).getD 0 default).number = strL "12"
    ∧ strL "12" ≠ strL "012" := by decide

/-- Claim C2: for a Product with at least one resolved and one unresolved
number, the backfill anchor is the first Item whose number has the maximal
byte length; parsed after stripping leading zeros, a positive anchor value
`v` at position `p` makes every position `i` receive the decimal string of
`v + i - p` (within the 64-bit range); Items `["", "012", ""]` become
`["11", "12", "13"]`. -/
theorem backfill_anchor_extrapolation :
    (∀ cards : List CardData,
      (∃ c ∈ cards, c.number ≠ []) →
      (∃ c ∈ cards, c.number = []) →
      ∃ p, p < cards.length ∧
        findLongestAux cards 0 ([], -1) = ((cards.getD p default).number, (p : Int)) ∧
        (cards.getD p default).number ≠ [] ∧
        (∀ q, q < cards.length → (cards.getD q default).number ≠ [] →
          lenB (cards.getD q default).number ≤ lenB (cards.getD p default).number) ∧
        (∀ q, q < p → (cards.getD q default).number ≠ [] →
          lenB (cards.getD q default).number < lenB (cards.getD p default).number) ∧
        (0 < atoiGo (trimLeftC '0' (cards.getD p default).number) →
          atoiGo (trimLeftC '0' (cards.getD p default).number) + (cards.length : Int)
            ≤ 2 ^ 63 →
          ∀ i, i < cards.length →
            ((backfillStep cards).getD i default).number
              = intToStr (atoiGo (trimLeftC '0' (cards.getD p default).number)
                  + (i : Int) - (p : Int))))
    ∧ (backfillStep [⟨strL "A", [], false, false, false⟩,
          ⟨strL "B", strL "012", false, false, false⟩,
          ⟨strL "C", [], false, false, false⟩]).map (fun c => c.number)
        = [strL "11", strL "12", strL "13"] := by
  constructor
  · intro cards h1 h2
    have hcount := countP_ne_of_empty cards h2
    rcases findLongestAux_spec cards 0 [] (-1) with ⟨heq, hmax⟩ | ⟨k, hk, heq, hne, hlt, hmax, hstrict⟩
    · exfalso
      obtain ⟨c, hc, hcn⟩ := h1
      obtain ⟨⟨k, hkl⟩, hck⟩ := List.mem_iff_get.mp hc
      have hgd : cards.getD k default = c := by
        rw [List.getD_eq_getElem cards default hkl]
        simpa using hck
      have hle := hmax k hkl (by rw [hgd]; exact hcn)
      rw [hgd] at hle
      have hp := lenB_pos c.number hcn
      simp only [lenB] at hle
      omega
    · have heq2 : findLongestAux cards 0 ([], -1)
          = ((cards.getD k default).number, (k : Int)) := by simpa using heq
      refine ⟨k, hk, heq2, hne, hmax, hstrict, ?_⟩
      intro hv hB i hi
      rw [backfillStep_number cards hcount _ _ heq2 hne hv i hi]
      congr 1
      have e1 : (2 : Int) ^ 63 = 9223372036854775808 := by norm_num
      have hiI : (i : Int) < (cards.length : Int) := by exact_mod_cast hi
      have hkI : (k : Int) < (cards.length : Int) := by exact_mod_cast hk
      have hk0 : (0 : Int) ≤ (k : Int) := by positivity
      have hi0 : (0 : Int) ≤ (i : Int) := by positivity
      rw [e1] at hB
      apply wrap64_eq_self
      · rw [e1]; omega
      · rw [e1]; omega
  · decide

/-- Witness for C2: the anchor of the scenario-D Product is `"012"` at
position 1, and the derived numbers are as the theorem states. -/
theorem backfill_anchor_extrapolation_witness :
    ∃ p, p < ([⟨strL "A", [], false, false, false⟩,
        ⟨strL "B", strL "012", false, false, false⟩,
        ⟨strL "C", [], false, false, false⟩] : List CardData).length ∧
      findLongestAux [⟨strL "A", [], false, false, false⟩,
          ⟨strL "B", strL "012", false, false, false⟩,
          ⟨strL "C", [], false, false, false⟩] 0 ([], -1)
        = ((([⟨strL "A", [], false, false, false⟩,
            ⟨strL "B", strL "012", false, false, false⟩,
            ⟨strL "C", [], false, false, false⟩] : List CardData).getD p default).number,
           (p : Int)) := by
  obtain ⟨p, hp, hfl, _⟩ := backfill_anchor_extrapolation.1
    [⟨strL "A", [], false, false, false⟩,
     ⟨strL "B", strL "012", false, false, false⟩,
     ⟨strL "C", [], false, false, false⟩]
    ⟨⟨strL "B", strL "012", false, false, false⟩, by decide, by decide⟩
    ⟨⟨strL "A", [], false, false, false⟩, by decide, by decide⟩
  exact ⟨p, hp, hfl⟩

/-- Claim C3 (corrected): the accepted line shape is `<n>x <name>` — count,
the letter x, a space, the name (no space between the count and the x).
When the count parses to `v` and the normalized name contains no further
occurrence of `"x "` and has a non-whitespace character (and the title is
not the special-cased `Astrology Lands`), canonicalization succeeds and
yields exactly `v` identical Items; in particular `"2x Lightning Bolt
(Foil)"` gives two foil Items named `"Lightning Bolt"`. -/
theorem line_shape_items_amended :
    (∀ (ds nm title : List Char) (v : Int),
      (∀ d ∈ ds, d.isDigit = true) →
      atoiCheck ds = some v →
      1 ≤ v →
      containsSubL (normU nm) (strL "x ") = false →
      (∃ x ∈ normU nm, x.isWhitespace = false) →
      containsSubL title (strL "Astrology Lands") = false →
      ∃ (nm2 : List Char) (card : CardData),
        cleanLineL (ds ++ (strL "x " ++ nm)) = .ok (nm2, v)
        ∧ card.name = nm2 ∧ card.number = []
        ∧ itemsForLine title (ds ++ (strL "x " ++ nm)) = List.replicate v.toNat card)
    ∧ itemsForLine [] (strL "2x Lightning Bolt (Foil)")
        = List.replicate 2
            { name := strL "Lightning Bolt", number := [],
              foil := true, etched := false, token := false } :=
  ⟨fun ds nm title v hdig hv _ hx hw ht =>
    itemsForLine_shaped title ds nm v hdig hv hx hw ht, by decide⟩

/-- Witness for C3: the general statement applied to `"2x Lightning Bolt
(Foil)"` with the empty title. -/
theorem line_shape_items_amended_witness :
    ∃ (nm2 : List Char) (card : CardData),
      cleanLineL (strL "2" ++ (strL "x " ++ strL "Lightning Bolt (Foil)"))
        = .ok (nm2, 2)
      ∧ card.name = nm2 ∧ card.number = []
      ∧ itemsForLine [] (strL "2" ++ (strL "x " ++ strL "Lightning Bolt (Foil)"))
          = List.replicate (2 : Int).toNat card :=
  line_shape_items_amended.1 (strL "2") (strL "Lightning Bolt (Foil)") [] 2
    (by decide) (by decide) (by decide) (by decide) (by decide) (by decide)

/-- Counterexample for C3 as stated: the spec's shape `"<n> x <name>"`, with
a space before the x, leaves a trailing space on the count field, `Atoi`
rejects it, and the line yields an error and no Items. -/
theorem line_space_x_counterexample :
    cleanLineL (strL "2 x Lightning Bolt (Foil)") = .error msgNumber
    ∧ itemsForLine [] (strL "2 x Lightning Bolt (Foil)") = [] := by decide

/-- Claim C4 (corrected): `cleanLine` returns the malformed-count error
exactly when `Atoi` fails on the first split field; a parsed count of 0 (or
a negative count) is accepted without error. -/
theorem cleanLine_count_parse_amended :
    (∀ line a b : List Char,
      splitOnL (trimL (normU line)) (strL "x ") = [a, b] →
      ((atoiCheck a = none → cleanLineL line = .error msgNumber)
        ∧ (∀ v, atoiCheck a = some v → ∃ nm2, cleanLineL line = .ok (nm2, v))))
    ∧ cleanLineL (strL "0x Foo") = .ok (strL "Foo", 0)
    ∧ cleanLineL (strL "-3x Foo") = .ok (strL "Foo", -3) :=
  ⟨fun line a b h => cleanLineL_of_split line a b h, by decide, by decide⟩

/-- Witness for C4: the general statement applied to `"1x Y"`. -/
theorem cleanLine_count_parse_amended_witness :
    ∃ nm2, cleanLineL (strL "1x Y") = .ok (nm2, 1) :=
  (cleanLine_count_parse_amended.1 (strL "1x Y") (strL "1") (strL "Y")
    (by decide)).2 1 (by decide)

/-- Counterexample for C4 as stated: a count of 0 does not produce a
malformed-line error — the line is accepted with count 0. -/
theorem count_zero_accepted_counterexample :
    cleanLineL (strL "0x Foo") = .ok (strL "Foo", 0) := by decide

/-- Claim C5: number extraction returns the first token of byte length
greater than 3 among the tokens before the first terminator glyph that
`Atoi` accepts; failing that, the first such token of byte length greater
than 2; and the empty result when a terminator glyph precedes every
qualifying token. -/
theorem extractNumber_first_qualifying (fields : List (List Char)) :
    numFromFields fields =
      (match (fields.takeWhile (fun f => !isTermTok f)).find? (qualTok 3) with
       | some f => f
       | none => ((fields.takeWhile (fun f => !isTermTok f)).find? (qualTok 2)).getD []) := by
  simp only [numFromFields, extractNumber_eq]
  rcases h3 : (fields.takeWhile (fun f => !isTermTok f)).find? (qualTok 3) with _ | f
  · simp
  · have hq := List.find?_some h3
    have hne : f ≠ [] := by
      intro hf
      rw [hf] at hq
      simp [qualTok, lenB] at hq
    simp [hne]

/-- Claim C6 (corrected): fold mode is entered exactly when the gallery
title has a parenthesized trailing count whose value, halved by Go's
truncating integer division, equals the Item count (so declared totals of
both `2n` and `2n+1` trigger it); in fold mode image `i` addresses Item
`i / 2`, and once the first image of a pair has stored a number, the second
image of the pair is skipped. -/
theorem fold_mode_amended :
    (∀ (g : List Char) (n : Nat),
      detectFoldMode g n = true ↔
        (containsSubL g (strL " (") = true
          ∧ goDiv (atoiGo (trimParen ((fieldsL g).getLastD []))) 2 = (n : Int)))
    ∧ (∀ (cards : List CardData) (k : Nat) (s : List Char) (img : ImgResult)
        (rest : List ImgResult),
        k < cards.length → (cards.getD k default).number = [] → s ≠ [] →
        ocrGo true cards (2 * k) (ImgResult.ocrNum s :: img :: rest)
          = ocrGo true (setCardNumber cards k s) (2 * k + 2) rest) := by
  constructor
  · intro g n
    unfold detectFoldMode
    by_cases hc : containsSubL g (strL " (") = true
    · rw [if_pos hc]
      constructor
      · intro h
        exact ⟨hc, beq_iff_eq.mp h⟩
      · intro h
        exact beq_iff_eq.mpr h.2
    · rw [if_neg hc]
      constructor
      · intro h
        cases h
      · intro h
        exact absurd h.1 hc
  · intro cards k s img rest hk hempty hs
    have hdiv1 : (2 * k) / 2 = k := by omega
    have hdiv2 : (2 * k + 1) / 2 = k := by omega
    rw [ocrGo_cons]
    have e1 : (if (true : Bool) then (2 * k) / 2 else (2 * k)) = k := by simp [hdiv1]
    rw [e1]
    rw [if_neg (by omega)]
    have hgde : (cards.getD k default).number.isEmpty = true := by
      rw [hempty]
      rfl
    rw [if_neg (fun hneg => hneg hgde)]
    show ocrGo true (setCardNumber cards k s) (2 * k + 1) (img :: rest)
      = ocrGo true (setCardNumber cards k s) (2 * k + 2) rest
    rw [ocrGo_cons]
    have e2 : (if (true : Bool) then (2 * k + 1) / 2 else (2 * k + 1)) = k := by
      simp [hdiv2]
    rw [e2]
    rw [if_neg (by rw [setCardNumber_length]; omega)]
    have hset := setCardNumber_getD_eq cards k s hk
    rw [if_pos (by rw [hset]; simpa [List.isEmpty_iff] using hs)]

/-- Witness for C6: the pairing statement applied to a one-card product. -/
theorem fold_mode_amended_witness :
    ocrGo true [⟨strL "A", [], false, false, false⟩] (2 * 0)
        (ImgResult.ocrNum (strL "9") :: ImgResult.ocrNum (strL "8") :: [])
      = ocrGo true (setCardNumber [⟨strL "A", [], false, false, false⟩] 0 (strL "9"))
          (2 * 0 + 2) [] :=
  fold_mode_amended.2 [⟨strL "A", [], false, false, false⟩] 0 (strL "9")
    (ImgResult.ocrNum (strL "8")) [] (by decide) (by decide) (by decide)

/-- Counterexample for C6 as stated: a declared total of 5 with 2 Items
enters fold mode although 5 is not exactly double 2. -/
theorem fold_mode_counterexample :
    detectFoldMode (strL "Card Gallery (5)") 2 = true
    ∧ atoiGo (trimParen (strL "(5)")) = 5
    ∧ (5 : Int) ≠ 2 * 2 := by decide

/-- Claim C7: the authoritative-query filter drops every record whose promo
types contain `"sldbonus"`, drops every record whose collector number ends
with `"★"`, and for a retained multi-face record keeps only the first
face's name while suffixing the identifier with `"a"`. -/
theorem search_filter_rules :
    (∀ c : ScryCard, c.promoTypes.contains (strL "sldbonus") = true →
      processOne c = none)
    ∧ (∀ c : ScryCard, hasSuffixL c.collectorNumber (strL "★") = true →
        processOne c = none)
    ∧ (∀ (c : ScryCard) (d : CardData), processOne c = some d → 2 ≤ c.cardFaces →
        d.name = (splitOnL c.name (strL " // ")).headD []
          ∧ d.number = c.collectorNumber ++ strL "a") := by
  refine ⟨?_, ?_, ?_⟩
  · intro c h
    simp only [processOne]
    rw [if_pos h]
  · intro c h
    simp only [processOne]
    by_cases h1 : c.promoTypes.contains (strL "sldbonus") = true
    · rw [if_pos h1]
    · rw [if_neg h1, if_pos h]
  · intro c d h hf
    simp only [processOne] at h
    by_cases h1 : c.promoTypes.contains (strL "sldbonus") = true
    · rw [if_pos h1] at h
      cases h
    · rw [if_neg h1] at h
      by_cases h2 : hasSuffixL c.collectorNumber (strL "★") = true
      · rw [if_pos h2] at h
        cases h
      · rw [if_neg h2] at h
        have hfaces : 0 < c.cardFaces := by omega
        rw [if_pos hfaces] at h
        simp only [Option.some.injEq] at h
        rw [← h]
        exact ⟨rfl, rfl⟩

/-- Witness for C7: a bonus record and a starred record are dropped; a
two-face record keeps the first face name and gains the `"a"` suffix. -/
theorem search_filter_rules_witness :
    processOne ⟨strL "Goblin", strL "12", 0, strL "Creature", [strL "sldbonus"]⟩ = none
    ∧ processOne ⟨strL "Elf", strL "12★", 0, strL "Creature", []⟩ = none
    ∧ ((⟨strL "A", strL "34a", false, false, false⟩ : CardData).name
          = (splitOnL (strL "A // B") (strL " // ")).headD []
        ∧ (⟨strL "A", strL "34a", false, false, false⟩ : CardData).number
          = strL "34" ++ strL "a") :=
  ⟨search_filter_rules.1 ⟨strL "Goblin", strL "12", 0, strL "Creature", [strL "sldbonus"]⟩
      (by decide),
   search_filter_rules.2.1 ⟨strL "Elf", strL "12★", 0, strL "Creature", []⟩ (by decide),
   search_filter_rules.2.2 ⟨strL "A // B", strL "34", 2, strL "Creature", []⟩
     ⟨strL "A", strL "34a", false, false, false⟩ (by decide) (by decide)⟩

/-- Claim C8: the raw title `"Secret Lair Drop: Heads I Win | Foil Edition"`
canonicalizes to the filename `"Drop- Heads I Win Foil Edition"` and the
display title `"Drop: Heads I Win Foil Edition"`. -/
theorem cleanTitle_scenario_b :
    cleanTitleL (strL "Secret Lair Drop: Heads I Win | Foil Edition")
      = (strL "Drop- Heads I Win Foil Edition", strL "Drop: Heads I Win Foil Edition") := by
  decide

/-- Claim C9 (corrected): the denylist pass is the identity on names free of
every denylist tag and its lowercase form; it is not idempotent in general,
because substring removal can splice together a new tag occurrence. -/
theorem strip_tags_noop_amended (s : List Char)
    (h : ∀ t ∈ tagStrs, containsSubL s t = false ∧ containsSubL s (lowerL t) = false) :
    removeTagsL s = s :=
  stripTags_of_clean tagStrs s h

/-- Witness for C9: a tag-free name is left unchanged. -/
theorem strip_tags_noop_amended_witness :
    removeTagsL (strL "Lightning Bolt") = strL "Lightning Bolt" :=
  strip_tags_noop_amended (strL "Lightning Bolt") (by decide)

/-- Counterexample for C9 as stated: one pass maps `"FoFoilil"` to `"Foil"`
(removing the inner `"Foil"` splices a new one), and a second pass removes
it, so the pass is not idempotent on its own output. -/
theorem strip_tags_not_idempotent_counterexample :
    removeTagsL (strL "FoFoilil") = strL "Foil"
    ∧ removeTagsL (removeTagsL (strL "FoFoilil")) = []
    ∧ removeTagsL (removeTagsL (strL "FoFoilil")) ≠ removeTagsL (strL "FoFoilil") := by
  decide

/-- Claim C10: backfill imposes no lower bound on extrapolated values: with
a positive anchor value `v` at position `p`, position `i` receives the
decimal string of `v + i - p` even when that value is zero or negative; the
Product `["", "", "1"]` receives `["-1", "0", "1"]`. -/
theorem backfill_no_lower_bound :
    (∀ (cards : List CardData) (num : List Char) (pos : Int),
      cards.countP (fun c => !c.number.isEmpty) ≠ cards.length →
      findLongestAux cards 0 ([], -1) = (num, pos) →
      num ≠ [] →
      0 < atoiGo (trimLeftC '0' num) →
      atoiGo (trimLeftC '0' num) + (cards.length : Int) ≤ 2 ^ 63 →
      ∀ i, i < cards.length →
        ((backfillStep cards).getD i default).number
          = intToStr (atoiGo (trimLeftC '0' num) + (i : Int) - pos))
    ∧ (backfillStep [⟨strL "A", [], false, false, false⟩,
          ⟨strL "B", [], false, false, false⟩,
          ⟨strL "C", strL "1", false, false, false⟩]).map (fun c => c.number)
        = [strL "-1", strL "0", strL "1"] := by
  constructor
  · intro cards num pos hcount hfl hnum hpos hB i hi
    rcases findLongestAux_spec cards 0 [] (-1) with ⟨heq, _⟩ | ⟨k, hk, heq, hne, _, _, _⟩
    · rw [hfl] at heq
      simp only [Prod.mk.injEq] at heq
      exact absurd heq.1 hnum
    · rw [hfl] at heq
      simp only [Prod.mk.injEq] at heq
      obtain ⟨hnumeq, hposeq⟩ := heq
      rw [backfillStep_number cards hcount num pos hfl hnum hpos i hi]
      congr 1
      have e1 : (2 : Int) ^ 63 = 9223372036854775808 := by norm_num
      have hiI : (i : Int) < (cards.length : Int) := by exact_mod_cast hi
      have hkI : (k : Int) < (cards.length : Int) := by exact_mod_cast hk
      have hk0 : (0 : Int) ≤ (k : Int) := by positivity
      have hi0 : (0 : Int) ≤ (i : Int) := by positivity
      have hposk : pos = (k : Int) := by
        rw [hposeq]
        simp
      rw [e1] at hB
      apply wrap64_eq_self
      · rw [e1]; rw [hposk]; omega
      · rw [e1]; rw [hposk]; omega
  · decide

/-- Witness for C10: position 0 of `["", "", "1"]` receives the decimal
string of `1 + 0 - 2 = -1`. -/
theorem backfill_no_lower_bound_witness :
    ((backfillStep [⟨strL "A", [], false, false, false⟩,
        ⟨strL "B", [], false, false, false⟩,
        ⟨strL "C", strL "1", false, false, false⟩]).getD 0 default).number
      = intToStr (atoiGo (trimLeftC '0' (strL "1")) + (0 : Int) - (2 : Int)) :=
  backfill_no_lower_bound.1
    [⟨strL "A", [], false, false, false⟩,
     ⟨strL "B", [], false, false, false⟩,
     ⟨strL "C", strL "1", false, false, false⟩]
    (strL "1") 2 (by decide) (by decide) (by decide) (by decide) (by decide) 0 (by decide)

/-! ## Model validation on concrete values -/

/-- The split of a spec-shaped line leaves a trailing space on the count
field (this is what breaks scenario A on the code). -/
theorem splitOnL_space_x_example :
    splitOnL (strL "2 x Lightning Bolt (Foil)") (strL "x ")
      = [strL "2 ", strL "Lightning Bolt (Foil)"] := by decide

/-- Go `Atoi` rejects a trailing space and accepts plain digits. -/
theorem atoiCheck_trailing_space :
    atoiCheck (strL "2 ") = none ∧ atoiGo (strL "12") = 12 := by decide

/-- Go integer division truncates toward zero. -/
theorem goDiv_truncates : goDiv 5 2 = 2 ∧ goDiv (-7) 2 = -3 := by decide

/-- Decimal printing matches `fmt.Sprint` on ints. -/
theorem intToStr_examples :
    intToStr (-1) = strL "-1" ∧ intToStr 0 = strL "0" := by decide
